import Mathlib

/-!
Verification of the Luma Package Registry tools:
`tools/update_index.py` (index rebuild) and `tools/validate_manifest.py`
(manifest validation).  The Python code operates on parsed JSON documents;
we embed the JSON value space and translate each Python function into a
Lean function over it.  Python exceptions are modelled with `Except PyExc`;
functions that cannot raise are pure.
-/

/-- JSON values as produced by `json.load`.  Numbers are modelled as
integers (the documents handled by these tools use integral numbers only;
floats are not modelled).  Objects are association lists with unique keys,
preserving insertion order as Python dicts do. -/
inductive Json where
  | null
  | bool (b : Bool)
  | num (n : Int)
  | str (s : String)
  | arr (elems : List Json)
  | obj (fields : List (String × Json))

/-- Python exceptions that the translated code can raise. -/
inductive PyExc where
  | attributeError
  | typeError
  | valueError
  | keyError
  | jsonDecodeError
deriving DecidableEq

/-- Python truthiness (`if x:`) of a JSON value:
`None`, `False`, `0`, `""`, `[]` and `{}` are falsy. -/
def truthy : Json → Bool
  | .null => false
  | .bool b => b
  | .num n => n != 0
  | .str s => s != ""
  | .arr l => !l.isEmpty
  | .obj fs => !fs.isEmpty

/-- Test for the JSON value `null` (Python `x is None`). -/
def isNull : Json → Bool
  | .null => true
  | _ => false

/-- Python `x == s` for a fixed string literal `s`: only the equal string
compares equal; values of other types compare unequal. -/
def isStrEq (s : String) : Json → Bool
  | .str t => t == s
  | _ => false

/-- Dictionary lookup `d.get(k)` on an object's field list. -/
def getKey? : List (String × Json) → String → Option Json
  | [], _ => none
  | p :: rest, k => if p.1 == k then some p.2 else getKey? rest k

/-- Dictionary membership `k in d`. -/
def hasKey (fs : List (String × Json)) (k : String) : Bool :=
  (getKey? fs k).isSome

/-- Dictionary assignment `d[k] = v`: replaces the value at the first
occurrence of the key (keeping its position, as Python dicts do — keys are
unique in parsed JSON), otherwise appends. -/
def setKeyS : List (String × Json) → String → Json → List (String × Json)
  | [], k, v => [(k, v)]
  | p :: rest, k, v => if p.1 == k then (k, v) :: rest else p :: setKeyS rest k v

/-- Substring containment, for Python `needle in haystack` on strings. -/
def containsSub (needle hay : List Char) : Bool :=
  (List.range (hay.length + 1)).any (fun i => needle.isPrefixOf (hay.drop i))

/-- Python `len(x)`: defined for strings, lists and dicts; raises
`TypeError` otherwise. -/
def pyLen : Json → Except PyExc Nat
  | .str s => .ok s.length
  | .arr l => .ok l.length
  | .obj fs => .ok fs.length
  | _ => .error .typeError

/-- Python `needle in x` for a string needle: key membership on dicts,
element membership on lists, substring test on strings; raises `TypeError`
on numbers, booleans and `None`. -/
def pyIn (needle : String) : Json → Except PyExc Bool
  | .obj fs => .ok (hasKey fs needle)
  | .arr l => .ok (l.any (isStrEq needle))
  | .str s => .ok (containsSub needle.data s.data)
  | _ => .error .typeError

/-- Python subscript `x[k]` with a string key: succeeds only on dicts
(raising `KeyError` for a missing key); raises `TypeError` on other types
(string and list subscripts require integer indices). -/
def pySubscriptStr (k : String) : Json → Except PyExc Json
  | .obj fs =>
    match getKey? fs k with
    | some v => .ok v
    | none => .error .keyError
  | _ => .error .typeError

/-- The Python types named in the validator's schema tables. -/
inductive JType where
  | str
  | list
  | dict
  | int

/-- Python `isinstance(v, t)`.  Note that `bool` is a subclass of `int` in
Python, so booleans pass an `int` instance test. -/
def jIsinstance : Json → JType → Bool
  | .str _, .str => true
  | .arr _, .list => true
  | .obj _, .dict => true
  | .num _, .int => true
  | .bool _, .int => true
  | _, _ => false

/-- The `__name__` of each schema type, used in error messages. -/
def tyName : JType → String
  | .str => "str"
  | .list => "list"
  | .dict => "dict"
  | .int => "int"

/-- Python `str(x)` as used in f-string interpolation of manifest values.
Scalars are rendered as Python renders them; container reprs are
abbreviated (no claim inspects a message interpolating a container). -/
def pyStr : Json → String
  | .str s => s
  | .num n => toString n
  | .bool true => "True"
  | .bool false => "False"
  | .null => "None"
  | .arr _ => "<list>"
  | .obj _ => "<dict>"

/-- Splitting a character list at every occurrence of `c`, keeping empty
parts, exactly like Python `str.split(c)`: `"".split "."` is `[""]` and
`"1..2".split "."` is `["1", "", "2"]`. -/
def splitOnChar (c : Char) : List Char → List (List Char)
  | [] => [[]]
  | x :: xs =>
    match splitOnChar c xs with
    | [] => [[]]
    | h :: t => if x = c then [] :: h :: t else (x :: h) :: t

/-- Python `v.split(".")` on a string, as character lists. -/
def splitDots (s : String) : List (List Char) :=
  splitOnChar '.' s.data

/-- Nonempty and consisting of ASCII digits only (Python `str.isdigit`,
restricted to ASCII; non-ASCII digits are not modelled). -/
def allDigits (l : List Char) : Bool :=
  !l.isEmpty && l.all Char.isDigit

/-- Numeric value of a digit character. -/
def digitVal (c : Char) : Nat :=
  c.toNat - 48

/-- Value of a string of decimal digits. -/
def decimalVal (l : List Char) : Nat :=
  l.foldl (fun a c => a * 10 + digitVal c) 0

/-- Python `int(p)` on the strings occurring here: an optional sign
followed by one or more ASCII digits; returns `none` when the call would
raise `ValueError`.  (Surrounding whitespace and underscore digit
separators accepted by Python are not modelled.) -/
def pyInt : List Char → Option Int
  | [] => none
  | c :: rest =>
    if c = '-' then (if allDigits rest then some (-(decimalVal rest : Int)) else none)
    else if c = '+' then (if allDigits rest then some (decimalVal rest : Int) else none)
    else if allDigits (c :: rest) then some (decimalVal (c :: rest) : Int) else none

/-- Python tuple comparison `<` on integer tuples: lexicographic, with a
proper prefix comparing less than any extension. -/
def tupleLt : List Int → List Int → Bool
  | [], [] => false
  | [], _ :: _ => true
  | _ :: _, [] => false
  | a :: as, b :: bs => if a < b then true else if b < a then false else tupleLt as bs

/-- The ordering used to model Python `sorted(..., key=key, reverse=True)`:
`a` may precede `b` exactly when `key a` is not strictly below `key b`.
With a stable sort this places elements in descending key order, ties kept
in original order — exactly CPython's stable sort with `reverse=True`. -/
def keyGe {α : Type} (key : α → List Int) (a b : α) : Prop :=
  tupleLt (key a) (key b) = false

instance {α : Type} (key : α → List Int) : DecidableRel (keyGe key) :=
  fun a b => inferInstanceAs (Decidable (tupleLt (key a) (key b) = false))

/-- Key function of `get_latest_version` (`update_index.py` lines 19-24):
split on dots and parse every component as an int; any exception — a
non-string value or a component that is not an integer literal — yields
the fallback key `(0, 0, 0)` via the bare `except:`. -/
def version_key (v : Json) : List Int :=
  match v with
  | .str s =>
    match (splitDots s).mapM pyInt with
    | some ks => ks
    | none => [0, 0, 0]
  | _ => [0, 0, 0]

/-- Translation of `get_latest_version` (`update_index.py` lines 13-27):
return `None` on an empty list, otherwise the head of the list sorted
descending by `version_key`. -/
def get_latest_version (versions : List Json) : Option Json :=
  if versions.isEmpty then none
  else (List.insertionSort (keyGe version_key) versions).head?

/-- Key function of the `versions` sort on `update_index.py` line 126:
`tuple(int(p) for p in v.split(".")) if v.replace(".", "").isdigit() else (0, 0, 0)`.
Unlike `version_key` this one can raise: `AttributeError` when `v` is not
a string (`v.replace`), and `ValueError` from `int("")` when the digit
guard passes but some dot-separated part is empty (e.g. `"1..2"`). -/
def sortKey126 (v : Json) : Except PyExc (List Int) :=
  match v with
  | .str s =>
    if allDigits (s.data.filter (fun c => c != '.')) then
      (splitDots s).mapM (fun p => if p.isEmpty then .error .valueError else .ok (decimalVal p : Int))
    else .ok [0, 0, 0]
  | _ => .error .attributeError

/-- The `versions` list of a package summary (`update_index.py` line 126):
sort descending and stably by `sortKey126`; Python's `sorted` computes all
keys first (in list order), so the first raising key aborts the sort. -/
def sortVersions (l : List Json) : Except PyExc (List Json) :=
  match l.mapM (fun v => (sortKey126 v).map (fun k => (v, k))) with
  | .error e => .error e
  | .ok keyed => .ok ((List.insertionSort (keyGe (fun p : Json × List Int => p.2)) keyed).map (fun p => p.1))

/-- Version extraction loop (`update_index.py` lines 96-104), folding over
the `versions` entries.  The accumulator is the pair
(`versions_list`, `category`); `category` starts as Python `None`
(JSON `null`).  An object entry contributes its `version` value only if it
has one, and only such entries are inspected for `category` (an assignment
of `null` leaves `category` as `None`, so scanning continues); a bare
string entry contributes itself; anything else is ignored. -/
def extractStep (acc : List Json × Json) (e : Json) : List Json × Json :=
  match e with
  | .obj ef =>
    if hasKey ef "version" then
      (acc.1 ++ [(getKey? ef "version").getD .null],
        if hasKey ef "category" && isNull acc.2 then (getKey? ef "category").getD .null
        else acc.2)
    else acc
  | .str s => (acc.1 ++ [Json.str s], acc.2)
  | _ => acc

/-- The fold of `extractStep` over the manifest's version entries. -/
def extractVersions (entries : List Json) : List Json × Json :=
  entries.foldl extractStep ([], Json.null)

/-- Legacy bucket-name remapping (`update_index.py` lines 107-110):
`"core"` becomes `"registry"`, `"third-party"` becomes `"assets-store"`. -/
def remapCategory (c : Json) : Json :=
  if isStrEq "core" c then .str "registry"
  else if isStrEq "third-party" c then .str "assets-store"
  else c

/-- Category resolution (`update_index.py` lines 106-118): remap legacy
labels, then, when no category was found, infer from the package name
prefix `com.nexel.`.  The prefix test `package_name.startswith` raises
`AttributeError` when the name is not a string. -/
def resolveBucket (packageName : Json) (cat0 : Json) : Except PyExc Json :=
  let cat1 := remapCategory cat0
  if isNull cat1 then
    match packageName with
    | .str n =>
      .ok (if "com.nexel.".data.isPrefixOf n.data then Json.str "registry" else Json.str "assets-store")
    | _ => .error .attributeError
  else .ok cat1

/-- Whether a package lands in the `registry` bucket (`update_index.py`
lines 129-132): exactly when the resolved category equals `"registry"`;
every other category value selects `assets-store`. -/
def bucketOf (packageName : Json) (entries : List Json) : Except PyExc Bool :=
  match resolveBucket packageName (extractVersions entries).2 with
  | .error e => .error e
  | .ok cat => .ok (isStrEq "registry" cat)

/-- The dictionary key under which a package is stored.  Python accepts any
hashable key at the assignment (`update_index.py` lines 130/132) and
`json.dump` later coerces non-string keys to strings; the coercion is
applied here at insertion.  Unhashable keys (lists, dicts) raise
`TypeError` at the assignment. -/
def pyDictKey : Json → Except PyExc String
  | .str s => .ok s
  | .num n => .ok (toString n)
  | .bool b => .ok (if b then "true" else "false")
  | .null => .ok "null"
  | .arr _ => .error .typeError
  | .obj _ => .error .typeError

/-- Outcome of processing one loaded manifest. -/
inductive ProcResult where
  | noVersions
  | found (key : String) (info : Json) (inRegistry : Bool)

/-- Processing of one successfully parsed manifest (`update_index.py`
lines 90-134): derive the package name (falling back to the directory
name), extract versions and category, resolve the bucket, compute the
latest version, and build the package summary.  Raises (to be caught by
the caller's `except` at lines 140-141) when the manifest is not a dict
(`manifest.get`), when the name is a non-string and prefix inference is
needed, when the line-126 sort key raises, or when the package name is an
unhashable dict key. -/
def processManifest (dirName : String) (manifest : Json) : Except PyExc ProcResult :=
  match manifest with
  | .obj fields =>
    let packageName := (getKey? fields "name").getD (.str dirName)
    let entries :=
      match getKey? fields "versions" with
      | some (.arr es) => es
      | _ => []
    let ev := extractVersions entries
    match resolveBucket packageName ev.2 with
    | .error e => .error e
    | .ok cat =>
      match get_latest_version ev.1 with
      | some latest =>
        if truthy latest then
          match sortVersions ev.1 with
          | .error e => .error e
          | .ok sortedVs =>
            match pyDictKey packageName with
            | .error e => .error e
            | .ok key =>
              .ok (.found key (.obj [("latest", latest), ("versions", .arr sortedVs)])
                (isStrEq "registry" cat))
        else .ok .noVersions
      | none => .ok .noVersions
  | _ => .error .attributeError

/-- State of one file on disk: absent, present but not parseable as JSON
(or unreadable), or parsed to a JSON document. -/
inductive FileState where
  | absent
  | malformed
  | parsed (j : Json)

/-- The filesystem inputs of one rebuild: the `manifests` directory (`none`
when it does not exist; otherwise the list of subdirectories, each with the
state of its `index.json`) and the state of the root `index.json`. -/
structure FS where
  manifestsDir : Option (List (String × FileState))
  indexFile : FileState

/-- Accumulator of the manifest scan: the two bucket dictionaries and the
identifiers of manifests that were warned about. -/
structure ScanAcc where
  reg : List (String × Json)
  assets : List (String × Json)
  warned : List String

/-- One step of the scan loop (`update_index.py` lines 83-141).  A subdir
without `index.json` is skipped silently; a malformed or unreadable file
is warned about; an exception from `processManifest` is caught and warned
about (lines 140-141); a package with no usable versions is warned about
(line 136, where the source prints the package name — recorded here by
its directory name); otherwise the package summary is assigned into its
bucket. -/
def scanStep (acc : ScanAcc) (entry : String × FileState) : ScanAcc :=
  match entry.2 with
  | .absent => acc
  | .malformed => { acc with warned := acc.warned ++ [entry.1] }
  | .parsed m =>
    match processManifest entry.1 m with
    | .error _ => { acc with warned := acc.warned ++ [entry.1] }
    | .ok .noVersions => { acc with warned := acc.warned ++ [entry.1] }
    | .ok (.found key info inReg) =>
      if inReg then { acc with reg := setKeyS acc.reg key info }
      else { acc with assets := setKeyS acc.assets key info }

/-- The whole manifest scan (`update_index.py` lines 80-141). -/
def scanManifests (dirs : List (String × FileState)) : ScanAcc :=
  dirs.foldl scanStep ⟨[], [], []⟩

/-- The fresh index synthesized when no `index.json` exists
(`update_index.py` lines 56-64). -/
def freshIndexFields : List (String × Json) :=
  [("$schema", .str "https://json-schema.org/draft/2020-12/schema"),
   ("registry", .str "Luma Package Registry"),
   ("revision", .num 1),
   ("packages", .obj [("registry", .obj []), ("assets-store", .obj [])])]

/-- Python `int(b)` of a boolean, for the increment of a boolean revision. -/
def pyBoolInt (b : Bool) : Int :=
  if b then 1 else 0

/-- Revision update on a loaded index (`update_index.py` lines 44-54):
an integer revision is incremented by 1 — and since `isinstance(x, int)`
accepts booleans, a boolean revision is incremented as its numeric value;
any other present revision is replaced by `marker`, the hash of the
current UTC timestamp truncated to 16 characters (passed in as an opaque
string); a missing revision is set to the integer 1. -/
def bumpRevision (marker : String) (fields : List (String × Json)) : List (String × Json) :=
  if hasKey fields "revision" then
    match (getKey? fields "revision").getD .null with
    | .num n => setKeyS fields "revision" (.num (n + 1))
    | .bool b => setKeyS fields "revision" (.num (pyBoolInt b + 1))
    | _ => setKeyS fields "revision" (.str marker)
  else setKeyS fields "revision" (.num 1)

/-- Self-healing of the `packages` structure (`update_index.py` lines
66-77): replace a missing or non-dict `packages` with empty buckets, then
ensure both buckets exist.  (The final assignment on line 144 overwrites
`packages` wholesale, so this block does not influence the written
index; it is kept for fidelity.) -/
def healPackages1 (fields : List (String × Json)) : List (String × Json) :=
  match getKey? fields "packages" with
  | some (.obj _) => fields
  | _ => setKeyS fields "packages" (.obj [("registry", .obj []), ("assets-store", .obj [])])

/-- Second half of the self-healing block (`update_index.py` lines 73-77):
ensure both buckets exist inside `packages`. -/
def healPackages (fields : List (String × Json)) : List (String × Json) :=
  match getKey? (healPackages1 fields) "packages" with
  | some (.obj pf) =>
    let pf1 := if hasKey pf "registry" then pf else setKeyS pf "registry" (.obj [])
    let pf2 := if hasKey pf1 "assets-store" then pf1 else setKeyS pf1 "assets-store" (.obj [])
    setKeyS (healPackages1 fields) "packages" (.obj pf2)
  | _ => healPackages1 fields

/-- Result of one rebuild: `failure` is the early `return False`
(`update_index.py` line 38, nothing written); `success` carries the index
document written to `index.json` and the warning identifiers printed. -/
inductive RebuildResult where
  | failure
  | success (index : Json) (warned : List String)

/-- The freshly computed `packages` object (`update_index.py` lines
144-147): exactly the two buckets, rebuilt wholesale from the scan. -/
def scanPackagesJson (dirs : List (String × FileState)) : Json :=
  .obj [("registry", .obj (scanManifests dirs).reg),
        ("assets-store", .obj (scanManifests dirs).assets)]

/-- Final assembly of the written index (`update_index.py` lines 144-159):
replace `packages` of the (healed) index wholesale with the scan result,
and report the scan's warnings. -/
def finishIndex (fields : List (String × Json)) (dirs : List (String × FileState)) : RebuildResult :=
  .success (.obj (setKeyS (healPackages fields) "packages" (scanPackagesJson dirs)))
    (scanManifests dirs).warned

/-- Translation of `update_index` (`update_index.py` lines 29-159).
`marker` stands for the opaque hash of the current UTC timestamp
(lines 50-52).  A missing `manifests` directory returns `False` without
writing; a malformed root `index.json` raises `json.JSONDecodeError`
uncaught (line 43); an existing root index that parses to a non-dict
raises `TypeError` uncaught (lines 45-54: `in` / item assignment on a
non-dict); otherwise the revision is updated (or the fresh index used)
and the scan result is written. -/
def update_index (fs : FS) (marker : String) : Except PyExc RebuildResult :=
  match fs.manifestsDir with
  | none => .ok .failure
  | some dirs =>
    match fs.indexFile with
    | .malformed => .error .jsonDecodeError
    | .parsed (.obj flds) => .ok (finishIndex (bumpRevision marker flds) dirs)
    | .parsed _ => .error .typeError
    | .absent => .ok (finishIndex freshIndexFields dirs)

/-- The `revision` field of an index document. -/
def revisionOf (j : Json) : Option Json :=
  match j with
  | .obj fs => getKey? fs "revision"
  | _ => none

/-- The `packages` field of an index document. -/
def packagesOf (j : Json) : Option Json :=
  match j with
  | .obj fs => getKey? fs "packages"
  | _ => none

/-- Schema table `REQUIRED_MANIFEST_FIELDS` (`validate_manifest.py`
lines 13-16), in declaration order. -/
def REQUIRED_MANIFEST_FIELDS : List (String × JType) :=
  [("name", .str), ("versions", .list)]

/-- Schema table `REQUIRED_VERSION_FIELDS` (`validate_manifest.py`
lines 18-23), in declaration order. -/
def REQUIRED_VERSION_FIELDS : List (String × JType) :=
  [("version", .str), ("shasum", .str), ("url", .str), ("published", .str)]

/-- Required-field loop of `validate_version` (`validate_manifest.py`
lines 37-41): a missing field and a mistyped field each produce one
error; the version entry is known to be a dict, so no exception arises. -/
def requiredVersionErrors (vf : List (String × Json)) : List String :=
  REQUIRED_VERSION_FIELDS.foldl
    (fun acc p =>
      let f := p.1
      match getKey? vf f with
      | none => acc ++ [s!"Missing required field: {f}"]
      | some v =>
        if jIsinstance v p.2 then acc
        else
          let tn := tyName p.2
          acc ++ [s!"Invalid type for {f}: expected {tn}"])
    []

/-- SemVer format check of `validate_version` (`validate_manifest.py`
lines 44-54): applied to `version.get("version", "")` when truthy.  A
truthy non-string value raises `AttributeError` at `version_str.split`. -/
def versionFormatErrors (vf : List (String × Json)) : Except PyExc (List String) :=
  let vval := (getKey? vf "version").getD (.str "")
  if truthy vval then
    match vval with
    | .str s =>
      let parts := splitDots s
      if parts.length ≠ 3 then
        .ok [s!"Invalid version format \x27{s}\x27: must be SemVer (e.g., 1.0.0)"]
      else
        match parts.mapM pyInt with
        | some _ => .ok []
        | none => .ok [s!"Invalid version format \x27{s}\x27: parts must be numeric"]
    | _ => .error .attributeError
  else .ok []

/-- SHA-256 length check of `validate_version` (`validate_manifest.py`
lines 57-59): applied to a truthy `shasum`; `len` raises `TypeError` on
numbers, booleans and `None`. -/
def shasumErrors (vf : List (String × Json)) : Except PyExc (List String) :=
  let sval := (getKey? vf "shasum").getD (.str "")
  if truthy sval then
    match pyLen sval with
    | .error e => .error e
    | .ok n =>
      if n ≠ 64 then .ok ["Invalid SHA256 format: must be 64 hexadecimal characters"]
      else .ok []
  else .ok []

/-- URL check of `validate_version` (`validate_manifest.py` lines 62-64):
applied to a truthy `url`; `startswith` raises `AttributeError` on
non-strings. -/
def urlErrors (vf : List (String × Json)) : Except PyExc (List String) :=
  let uval := (getKey? vf "url").getD (.str "")
  if truthy uval then
    match uval with
    | .str s =>
      if "http".data.isPrefixOf s.data then .ok []
      else .ok ["Invalid URL format: must start with http:// or https://"]
    | _ => .error .attributeError
  else .ok []

/-- `engineVersion` check of `validate_version` (`validate_manifest.py`
lines 67-75): a truthy string passes; a truthy dict must contain `min` or
`max`; there is no `else` branch, so every other truthy shape (number,
list, boolean) passes silently, and falsy values (including the empty
dict) skip the check entirely. -/
def engineErrors (vf : List (String × Json)) : List String :=
  let ev := (getKey? vf "engineVersion").getD .null
  if truthy ev then
    match ev with
    | .str _ => []
    | .obj mf =>
      if hasKey mf "min" || hasKey mf "max" then []
      else ["engineVersion object must contain \x27min\x27 or \x27max\x27 field"]
    | _ => []
  else []

/-- Translation of `validate_version` (`validate_manifest.py` lines 32-77);
the `package_name` parameter is accepted and unused, as in the source.
Errors accumulate in source order. -/
def validate_version (vf : List (String × Json)) (packageName : Json) : Except PyExc (List String) :=
  let _ := packageName
  let errs1 := requiredVersionErrors vf
  match versionFormatErrors vf with
  | .error e => .error e
  | .ok errs2 =>
    match shasumErrors vf with
    | .error e => .error e
    | .ok errs3 =>
      match urlErrors vf with
      | .error e => .error e
      | .ok errs4 => .ok (errs1 ++ errs2 ++ errs3 ++ errs4 ++ engineErrors vf)

/-- Required-field loop of `validate_manifest` (`validate_manifest.py`
lines 95-99): field membership and subscript follow Python semantics on
arbitrary documents, so a non-container document raises `TypeError`. -/
def checkRequiredFields (manifest : Json) : List (String × JType) → Except PyExc (List String)
  | [] => .ok []
  | p :: rest =>
    let f := p.1
    match pyIn f manifest with
    | .error e => .error e
    | .ok false =>
      match checkRequiredFields manifest rest with
      | .error e => .error e
      | .ok more => .ok (s!"Missing required field: {f}" :: more)
    | .ok true =>
      match pySubscriptStr f manifest with
      | .error e => .error e
      | .ok v =>
        if jIsinstance v p.2 then checkRequiredFields manifest rest
        else
          match checkRequiredFields manifest rest with
          | .error e => .error e
          | .ok more =>
            let tn := tyName p.2
            .ok (s!"Invalid type for {f}: expected {tn}" :: more)

/-- Version-entry loop of `validate_manifest` (`validate_manifest.py`
lines 107-113): each entry is checked with its zero-based index; non-dict
entries are reported and skipped; per-version errors are prefixed with the
index and the entry's version value. -/
def checkEntries (pkg : Json) (i : Nat) : List Json → Except PyExc (List String)
  | [] => .ok []
  | ve :: rest =>
    match ve with
    | .obj vf =>
      match validate_version vf pkg with
      | .error e => .error e
      | .ok verrs =>
        match checkEntries pkg (i + 1) rest with
        | .error e => .error e
        | .ok more =>
          let shown := pyStr ((getKey? vf "version").getD (.str "unknown"))
          .ok (verrs.map (fun er => s!"Version {i} ({shown}): {er}") ++ more)
    | _ =>
      match checkEntries pkg (i + 1) rest with
      | .error e => .error e
      | .ok more => .ok (s!"Version entry {i} is not an object" :: more)

/-- The `package_name` fallback of `validate_manifest.py` line 106. -/
def manifestPkgName (manifest : Json) : Json :=
  match manifest with
  | .obj fs => (getKey? fs "name").getD (.str "unknown")
  | _ => Json.str "unknown"

/-- Translation of `validate_manifest` (`validate_manifest.py` lines
79-115) from the point where the document has been parsed (the claims
concern syntactically valid input; the missing-file and JSON-decode-error
early returns of lines 83-92 precede this).  Returns
`(len(errors) == 0, errors)`. -/
def validate_manifest (manifest : Json) : Except PyExc (Bool × List String) :=
  match checkRequiredFields manifest REQUIRED_MANIFEST_FIELDS with
  | .error e => .error e
  | .ok errs1 =>
    match pyIn "versions" manifest with
    | .error e => .error e
    | .ok false => .ok (errs1.isEmpty, errs1)
    | .ok true =>
      match pySubscriptStr "versions" manifest with
      | .error e => .error e
      | .ok (.arr entries) =>
        match checkEntries (manifestPkgName manifest) 0 entries with
        | .error e => .error e
        | .ok errs2 =>
          let errs := errs1 ++ errs2
          .ok (errs.isEmpty, errs)
      | .ok _ =>
        let errs := errs1 ++ ["\x27versions\x27 must be an array"]
        .ok (errs.isEmpty, errs)

/-- Extracting the written index from a rebuild outcome. -/
def indexOfResult : Except PyExc RebuildResult → Option Json
  | .ok (.success idx _) => some idx
  | _ => none

/-- Extracting the warning list from a rebuild outcome. -/
def warnedOfResult : Except PyExc RebuildResult → Option (List String)
  | .ok (.success _ w) => some w
  | _ => none

/-- The `revision` field of the index written by a rebuild outcome. -/
def revisionOfResult (r : Except PyExc RebuildResult) : Option Json :=
  match indexOfResult r with
  | some j => revisionOf j
  | none => none

/-- The `packages` field of the index written by a rebuild outcome. -/
def packagesOfResult (r : Except PyExc RebuildResult) : Option Json :=
  match indexOfResult r with
  | some j => packagesOf j
  | none => none

/-- A well-formed numeric triplet in the sense of the claims: exactly
three dot-separated components, each a nonempty string of digits. -/
def numericTriplet (s : String) : Bool :=
  (splitDots s).length == 3 && (splitDots s).all allDigits

/-- The numeric key of a version string, component by component. -/
def numKey (s : String) : List Int :=
  (splitDots s).map (fun p => (decimalVal p : Int))

/-- The category value the scan loop actually settles on, described
directly: the first non-`null` `category` value among version entries that
are objects containing a `version` field (a `null` category leaves the
accumulator untouched, so scanning continues past it). -/
def amendedFirstCategory (entries : List Json) : Option Json :=
  entries.findSome? (fun e =>
    match e with
    | .obj ef =>
      if hasKey ef "version" then
        match getKey? ef "category" with
        | some c => if isNull c then none else some c
        | none => none
      else none
    | _ => none)

/-- Claim C5 as stated (modelled from the spec sentence for comparison):
the first explicit `category` value found while scanning version entries
in order — with no requirement that the entry also carry a `version`
field. -/
def claimFirstCategory (entries : List Json) : Option Json :=
  entries.findSome? (fun e =>
    match e with
    | .obj ef => getKey? ef "category"
    | _ => none)

/-- Claim C5 as stated (modelled from the spec sentence for comparison):
remap the first category found and compare it against `"registry"`; when
no entry carries a category, infer the bucket from the name prefix. -/
def claimBucketIsRegistry (packageName : String) (entries : List Json) : Bool :=
  match claimFirstCategory entries with
  | some c => isStrEq "registry" (remapCategory c)
  | none => "com.nexel.".data.isPrefixOf packageName.data

/-- The condition under which the source's `engineVersion` block reports
an error: the value is a dict that is truthy (nonempty) and contains
neither `min` nor `max`. -/
def engineShapeError (ev : Json) : Bool :=
  match ev with
  | .obj mf => !mf.isEmpty && !(hasKey mf "min" || hasKey mf "max")
  | _ => false

/-- A version entry whose four required fields are well-formed, carrying a
given `engineVersion`, isolating the `engineVersion` check. -/
def engineProbeEntry (ev : Json) : List (String × Json) :=
  [("version", .str "1.0.0"),
   ("shasum", .str "aaaaaaaaaaaaaaaaaaaaaaaaaaaaaaaaaaaaaaaaaaaaaaaaaaaaaaaaaaaaaaaa"),
   ("url", .str "https://example.com/p.zip"),
   ("published", .str "2024-01-01"),
   ("engineVersion", ev)]

/-- A version entry meeting all the hypotheses of claim C7 (plus the
engineVersion condition the counterexample forces): required fields
present as strings, `version` a numeric triplet, `shasum` of length 64,
`url` starting with `http`, and no error-producing `engineVersion`. -/
def WellFormedEntry (ef : List (String × Json)) : Prop :=
  (∃ v, getKey? ef "version" = some (.str v) ∧ numericTriplet v = true) ∧
  (∃ sh, getKey? ef "shasum" = some (.str sh) ∧ sh.length = 64) ∧
  (∃ u, getKey? ef "url" = some (.str u) ∧ "http".data.isPrefixOf u.data = true) ∧
  (∃ pb, getKey? ef "published" = some (.str pb)) ∧
  (∀ ev, getKey? ef "engineVersion" = some ev → engineShapeError ev = false)

theorem getKey?_setKeyS_self (fs : List (String × Json)) (k : String) (v : Json) :
    getKey? (setKeyS fs k v) k = some v := by
  induction fs with
  | nil => simp [setKeyS, getKey?]
  | cons p rest ih =>
    by_cases h : p.1 = k
    · simp [setKeyS, getKey?, h]
    · simp only [setKeyS, beq_iff_eq, if_neg h]
      simpa [getKey?, beq_iff_eq, h] using ih

theorem getKey?_setKeyS_of_ne (fs : List (String × Json)) (k : String) (v : Json)
    (k' : String) (h : k' ≠ k) : getKey? (setKeyS fs k v) k' = getKey? fs k' := by
  induction fs with
  | nil => simp [setKeyS, getKey?, beq_iff_eq, Ne.symm h]
  | cons p rest ih =>
    by_cases hp : p.1 = k
    · simp [setKeyS, getKey?, beq_iff_eq, hp, Ne.symm h]
    · by_cases hq : p.1 = k' <;> simp [setKeyS, getKey?, beq_iff_eq, hp, hq, h, ih]

theorem getKey?_bumpRevision_of_ne (mk : String) (fs : List (String × Json))
    (k : String) (h : k ≠ "revision") :
    getKey? (bumpRevision mk fs) k = getKey? fs k := by
  unfold bumpRevision
  split
  · split <;> exact getKey?_setKeyS_of_ne _ _ _ _ h
  · exact getKey?_setKeyS_of_ne _ _ _ _ h

theorem getKey?_healPackages1_of_ne (fs : List (String × Json))
    (k : String) (h : k ≠ "packages") :
    getKey? (healPackages1 fs) k = getKey? fs k := by
  unfold healPackages1
  split
  · rfl
  · exact getKey?_setKeyS_of_ne _ _ _ _ h

theorem getKey?_healPackages_of_ne (fs : List (String × Json))
    (k : String) (h : k ≠ "packages") :
    getKey? (healPackages fs) k = getKey? fs k := by
  unfold healPackages
  split
  · rw [getKey?_setKeyS_of_ne _ _ _ _ h]
    exact getKey?_healPackages1_of_ne _ _ h
  · exact getKey?_healPackages1_of_ne _ _ h

theorem revisionOf_finishIndex (fields : List (String × Json)) (dirs : List (String × FileState)) :
    revisionOfResult (.ok (finishIndex fields dirs)) = getKey? fields "revision" := by
  show revisionOf (.obj (setKeyS (healPackages fields) "packages" (scanPackagesJson dirs)))
    = getKey? fields "revision"
  show getKey? (setKeyS (healPackages fields) "packages" (scanPackagesJson dirs)) "revision"
    = getKey? fields "revision"
  rw [getKey?_setKeyS_of_ne _ _ _ _ (by decide)]
  exact getKey?_healPackages_of_ne _ _ (by decide)

theorem packagesOf_finishIndex (fields : List (String × Json)) (dirs : List (String × FileState)) :
    packagesOfResult (.ok (finishIndex fields dirs)) = some (scanPackagesJson dirs) := by
  show getKey? (setKeyS (healPackages fields) "packages" (scanPackagesJson dirs)) "packages"
    = some (scanPackagesJson dirs)
  exact getKey?_setKeyS_self _ _ _

theorem getKey?_bumpRevision_rev (mk : String) (fs : List (String × Json)) :
    getKey? (bumpRevision mk fs) "revision" =
      some (match getKey? fs "revision" with
        | some (.num n) => .num (n + 1)
        | some (.bool b) => .num (pyBoolInt b + 1)
        | some _ => .str mk
        | none => .num 1) := by
  unfold bumpRevision hasKey
  cases h : getKey? fs "revision" with
  | none => simp [h, getKey?_setKeyS_self]
  | some v => cases v <;> simp [h, Option.getD, getKey?_setKeyS_self]

/-- C2 counterexample: an existing index whose `revision` is the boolean
`true` — present but not an integer — is rebuilt with an incremented
integer revision `2`, not with a newly computed opaque marker, because
Python's `isinstance(x, int)` accepts booleans. -/
theorem c2_counterexample :
    update_index ⟨some [], .parsed (.obj [("revision", .bool true)])⟩ "0123456789abcdef" =
      .ok (.success (.obj [("revision", .num 2),
        ("packages", .obj [("registry", .obj []), ("assets-store", .obj [])])]) []) := rfl

/-- C2 (amended): the revision written by a rebuild is a function of the
loaded revision: an integer `n` becomes `n + 1`; a boolean is treated as
an integer by the dynamic type test and becomes its numeric value plus 1;
any other present value is replaced by the opaque marker string (the
truncated hash of the current UTC build timestamp); a missing field, and a
missing index file, both produce the integer 1. -/
theorem c2_revision_update (mk : String) (dirs : List (String × FileState))
    (flds : List (String × Json)) :
    revisionOfResult (update_index ⟨some dirs, .parsed (.obj flds)⟩ mk) =
      some (match getKey? flds "revision" with
        | some (.num n) => .num (n + 1)
        | some (.bool b) => .num (pyBoolInt b + 1)
        | some _ => .str mk
        | none => .num 1) ∧
    revisionOfResult (update_index ⟨some dirs, .absent⟩ mk) = some (.num 1) := by
  constructor
  · show revisionOfResult (.ok (finishIndex (bumpRevision mk flds) dirs)) = _
    rw [revisionOf_finishIndex]
    exact getKey?_bumpRevision_rev mk flds
  · show revisionOfResult (.ok (finishIndex freshIndexFields dirs)) = _
    rw [revisionOf_finishIndex]
    rfl

/-- C10: every top-level field of a loaded index document other than
`revision` and `packages` is carried through to the written index
unchanged. -/
theorem c10_frame_fields (mk : String) (dirs : List (String × FileState))
    (flds : List (String × Json)) (k : String) (idx : Json) (w : List String)
    (h1 : update_index ⟨some dirs, .parsed (.obj flds)⟩ mk = .ok (.success idx w))
    (h2 : k ≠ "revision") (h3 : k ≠ "packages") :
    ∃ out, idx = .obj out ∧ getKey? out k = getKey? flds k := by
  simp only [update_index, finishIndex] at h1
  injection h1 with h1
  injection h1 with hidx hw
  refine ⟨_, hidx.symm, ?_⟩
  rw [getKey?_setKeyS_of_ne _ _ _ _ h3, getKey?_healPackages_of_ne _ _ h3,
    getKey?_bumpRevision_of_ne _ _ _ h2]

theorem c10_witness :
    ∃ out, Json.obj [("revision", Json.num 2), ("extra", Json.num 7),
        ("packages", Json.obj [("registry", Json.obj []), ("assets-store", Json.obj [])])] =
        .obj out ∧
      getKey? out "extra" = getKey? [("revision", Json.num 1), ("extra", Json.num 7)] "extra" :=
  c10_frame_fields "m" [] [("revision", Json.num 1), ("extra", Json.num 7)] "extra"
    (Json.obj [("revision", Json.num 2), ("extra", Json.num 7),
      ("packages", Json.obj [("registry", Json.obj []), ("assets-store", Json.obj [])])])
    [] rfl (by decide) (by decide)

/-- C3: rebuilding twice in succession over the same manifest tree gives
the same `packages` object (and the same warnings) both times, and an
integer revision advances by exactly 1 between the two rebuilds. -/
theorem c3_rebuild_roundtrip (mk1 mk2 : String) (dirs : List (String × FileState))
    (ifile : FileState) (idx1 : Json) (w1 : List String) (n : Int)
    (h1 : update_index ⟨some dirs, ifile⟩ mk1 = .ok (.success idx1 w1))
    (hrev : revisionOf idx1 = some (.num n)) :
    ∃ idx2, update_index ⟨some dirs, .parsed idx1⟩ mk2 = .ok (.success idx2 w1) ∧
      packagesOf idx2 = packagesOf idx1 ∧ revisionOf idx2 = some (.num (n + 1)) := by
  have key : ∃ B, idx1 = .obj (setKeyS (healPackages B) "packages" (scanPackagesJson dirs)) ∧
      w1 = (scanManifests dirs).warned := by
    cases ifile with
    | malformed => simp [update_index] at h1
    | absent =>
      simp only [update_index, finishIndex] at h1
      injection h1 with h1
      injection h1 with hidx hw
      exact ⟨freshIndexFields, hidx.symm, hw.symm⟩
    | parsed j =>
      cases j with
      | obj flds =>
        simp only [update_index, finishIndex] at h1
        injection h1 with h1
        injection h1 with hidx hw
        exact ⟨bumpRevision mk1 flds, hidx.symm, hw.symm⟩
      | null => simp [update_index] at h1
      | bool b => simp [update_index] at h1
      | num m => simp [update_index] at h1
      | str s => simp [update_index] at h1
      | arr l => simp [update_index] at h1
  obtain ⟨B, hidx1, hw1⟩ := key
  subst hidx1
  subst hw1
  refine ⟨.obj (setKeyS
      (healPackages (bumpRevision mk2 (setKeyS (healPackages B) "packages" (scanPackagesJson dirs))))
      "packages" (scanPackagesJson dirs)), rfl, ?_, ?_⟩
  · show getKey? _ "packages" = getKey? _ "packages"
    rw [getKey?_setKeyS_self, getKey?_setKeyS_self]
  · show getKey? _ "revision" = _
    rw [getKey?_setKeyS_of_ne _ _ _ _ (by decide), getKey?_healPackages_of_ne _ _ (by decide),
      getKey?_bumpRevision_rev]
    have hrev' : getKey? (setKeyS (healPackages B) "packages" (scanPackagesJson dirs)) "revision" =
        some (.num n) := hrev
    rw [hrev']

/-- C9 counterexample: with the `manifests` directory present (an empty
scan list) but the existing root `index.json` malformed, the rebuild
neither returns failure nor returns success — it aborts with an uncaught
`json.JSONDecodeError` before writing anything — so a failure occurs in a
state where `registryRoot/manifests` does exist. -/
theorem c9_counterexample :
    update_index ⟨some [], .malformed⟩ "m" = .error .jsonDecodeError ∧
      ∀ r, update_index ⟨some [], .malformed⟩ "m" ≠ .ok r := by
  refine ⟨rfl, fun r h => ?_⟩
  exact Except.noConfusion h

/-- C9 (amended): a missing `manifests` directory returns failure without
writing; a malformed root index aborts with an uncaught decode error and
a root index parsing to a non-object aborts with an uncaught type error
(both before writing); in every other state the rebuild returns success
and writes the scanned index; a subdirectory whose manifest is malformed
or unreadable contributes nothing to either bucket and only appends its
directory name to the warnings, while well-formed packages are still
included (concrete scenario in the last conjunct). -/
theorem c9_failure_modes (mk : String) :
    (∀ ifile, update_index ⟨none, ifile⟩ mk = .ok .failure) ∧
    (∀ dirs, update_index ⟨some dirs, .malformed⟩ mk = .error .jsonDecodeError) ∧
    (∀ dirs n, update_index ⟨some dirs, .parsed (.num n)⟩ mk = .error .typeError) ∧
    (∀ dirs b, update_index ⟨some dirs, .parsed (.bool b)⟩ mk = .error .typeError) ∧
    (∀ dirs s, update_index ⟨some dirs, .parsed (.str s)⟩ mk = .error .typeError) ∧
    (∀ dirs l, update_index ⟨some dirs, .parsed (.arr l)⟩ mk = .error .typeError) ∧
    (∀ dirs, update_index ⟨some dirs, .parsed .null⟩ mk = .error .typeError) ∧
    (∀ dirs, update_index ⟨some dirs, .absent⟩ mk =
      .ok (.success (.obj (setKeyS (healPackages freshIndexFields) "packages"
        (scanPackagesJson dirs))) (scanManifests dirs).warned)) ∧
    (∀ dirs flds, update_index ⟨some dirs, .parsed (.obj flds)⟩ mk =
      .ok (.success (.obj (setKeyS (healPackages (bumpRevision mk flds)) "packages"
        (scanPackagesJson dirs))) (scanManifests dirs).warned)) ∧
    (∀ dirs d, scanManifests (dirs ++ [(d, .malformed)]) =
      ⟨(scanManifests dirs).reg, (scanManifests dirs).assets,
        (scanManifests dirs).warned ++ [d]⟩) ∧
    update_index ⟨some [("aurora", .parsed (.obj [("name", .str "aurora"),
        ("versions", .arr [.obj [("version", .str "0.1.0")],
          .obj [("version", .str "0.2.0")]])])),
      ("broken", .malformed)], .absent⟩ mk =
      .ok (.success (.obj [("$schema", .str "https://json-schema.org/draft/2020-12/schema"),
        ("registry", .str "Luma Package Registry"),
        ("revision", .num 1),
        ("packages", .obj [("registry", .obj []),
          ("assets-store", .obj [("aurora", .obj [("latest", .str "0.2.0"),
            ("versions", .arr [.str "0.2.0", .str "0.1.0"])])])])]) ["broken"]) := by
  refine ⟨fun ifile => rfl, fun dirs => rfl, fun dirs n => rfl, fun dirs b => rfl,
    fun dirs s => rfl, fun dirs l => rfl, fun dirs => rfl, fun dirs => rfl,
    fun dirs flds => rfl, fun dirs d => ?_, rfl⟩
  simp [scanManifests, List.foldl_append, scanStep]

theorem tupleLt_irrefl : ∀ a : List Int, tupleLt a a = false
  | [] => rfl
  | _ :: xs => by simp [tupleLt, tupleLt_irrefl xs]

theorem tupleLt_trans : ∀ a b c : List Int,
    tupleLt a b = true → tupleLt b c = true → tupleLt a c = true
  | [], [], _, hab, _ => by simp [tupleLt] at hab
  | [], _ :: _, [], _, hbc => by simp [tupleLt] at hbc
  | [], _ :: _, _ :: _, _, _ => rfl
  | _ :: _, [], _, hab, _ => by simp [tupleLt] at hab
  | _ :: _, _ :: _, [], _, hbc => by simp [tupleLt] at hbc
  | a :: as, b :: bs, c :: cs, hab, hbc => by
    simp only [tupleLt] at hab hbc ⊢
    by_cases h1 : a < b
    · by_cases h2 : b < c
      · simp [lt_trans h1 h2]
      · by_cases h3 : c < b
        · simp [h2, h3] at hbc
        · have hbceq : b = c := le_antisymm (not_lt.1 h3) (not_lt.1 h2)
          subst hbceq
          simp [h1]
    · by_cases h4 : b < a
      · simp [h1, h4] at hab
      · have habeq : a = b := le_antisymm (not_lt.1 h4) (not_lt.1 h1)
        subst habeq
        simp [lt_irrefl] at hab
        by_cases h2 : a < c
        · simp [h2]
        · by_cases h3 : c < a
          · simp [h2, h3] at hbc
          · have haceq : a = c := le_antisymm (not_lt.1 h3) (not_lt.1 h2)
            subst haceq
            simp [lt_irrefl] at hbc ⊢
            exact tupleLt_trans as bs cs hab hbc

theorem tupleLt_asymm (a b : List Int) (h : tupleLt a b = true) : tupleLt b a = false := by
  cases hba : tupleLt b a
  · rfl
  · have := tupleLt_trans a b a h hba
    simp [tupleLt_irrefl] at this

theorem tupleLt_trichot : ∀ a b : List Int, tupleLt a b = true ∨ a = b ∨ tupleLt b a = true
  | [], [] => Or.inr (Or.inl rfl)
  | [], _ :: _ => Or.inl rfl
  | _ :: _, [] => Or.inr (Or.inr rfl)
  | a :: as, b :: bs => by
    rcases lt_trichotomy a b with h | h | h
    · exact Or.inl (by simp [tupleLt, h])
    · subst h
      rcases tupleLt_trichot as bs with h2 | h2 | h2
      · exact Or.inl (by simp [tupleLt, lt_irrefl, h2])
      · exact Or.inr (Or.inl (by rw [h2]))
      · exact Or.inr (Or.inr (by simp [tupleLt, lt_irrefl, h2]))
    · exact Or.inr (Or.inr (by simp [tupleLt, h]))

instance keyGe_isTotal {α : Type} (key : α → List Int) : IsTotal α (keyGe key) := by
  refine ⟨fun a b => ?_⟩
  unfold keyGe
  cases h : tupleLt (key a) (key b)
  · exact Or.inl rfl
  · exact Or.inr (tupleLt_asymm _ _ h)

instance keyGe_isTrans {α : Type} (key : α → List Int) : IsTrans α (keyGe key) := by
  refine ⟨fun a b c hab hbc => ?_⟩
  unfold keyGe at *
  cases h : tupleLt (key a) (key c)
  · rfl
  · rcases tupleLt_trichot (key a) (key b) with h1 | h1 | h1
    · simp [h1] at hab
    · rw [h1] at h
      simp [h] at hbc
    · have := tupleLt_trans _ _ _ h1 h
      simp [this] at hbc

/-- The element returned by `get_latest_version` is a member of the input
and maximizes `version_key` (weakly): no input element has a strictly
greater key. -/
theorem get_latest_max (versions : List Json) (m : Json)
    (h : get_latest_version versions = some m) :
    m ∈ versions ∧ ∀ v ∈ versions, tupleLt (version_key m) (version_key v) = false := by
  unfold get_latest_version at h
  by_cases he : versions.isEmpty
  · simp [he] at h
  · rw [if_neg he] at h
    cases hs : List.insertionSort (keyGe version_key) versions with
    | nil =>
      have hlen := List.length_insertionSort (keyGe version_key) versions
      rw [hs] at hlen
      cases versions with
      | nil => simp at he
      | cons x xs => simp at hlen
    | cons hd tl =>
      rw [hs] at h
      simp only [List.head?_cons] at h
      injection h with h
      subst h
      constructor
      · have hmem : hd ∈ List.insertionSort (keyGe version_key) versions := by
          rw [hs]; exact List.mem_cons_self _ _
        exact (List.mem_insertionSort _).1 hmem
      · intro v hv
        have hvs : v ∈ List.insertionSort (keyGe version_key) versions :=
          (List.mem_insertionSort _).2 hv
        rw [hs] at hvs
        have hsorted := List.sorted_insertionSort (keyGe version_key) versions
        rw [hs] at hsorted
        rcases List.mem_cons.1 hvs with h1 | h1
        · subst h1; exact tupleLt_irrefl _
        · exact List.rel_of_sorted_cons hsorted _ h1

/-- C1 counterexample: a version string that fails to parse as three
dot-separated integer components is NOT always ordered strictly below
every well-formed version and CAN be selected as `latest` with other
entries present: `"abc"` (key `(0,0,0)`) ties with `"0.0.0"` and wins by
sort stability, and `"1.2.3.4"` (four numeric components, so not a
triplet) compares by its actual four-element tuple and sorts above
`"1.2.3"`, becoming `latest` and heading the sorted list. -/
theorem c1_counterexample :
    get_latest_version [.str "abc", .str "0.0.0"] = some (.str "abc") ∧
    get_latest_version [.str "1.2.3.4", .str "1.2.3"] = some (.str "1.2.3.4") ∧
    sortVersions [.str "1.2.3.4", .str "1.2.3"] = .ok [.str "1.2.3.4", .str "1.2.3"] :=
  ⟨rfl, rfl, rfl⟩

/-- C1 (amended): `latest` is always an entry whose `version_key` no other
entry strictly exceeds; a version string whose dot-separated components do
not all parse as integers is keyed `(0, 0, 0)` — the same key as the
well-formed `"0.0.0"`, so it sorts at that level (weakly below well-formed
versions, tied with `0.0.0`, and by stability possibly ahead of it), while
a string of dot-separated integers with a component count other than three
is compared by its actual tuple and may sort above well-formed triplets. -/
theorem c1_malformed_version_ordering (versions : List Json) (m : Json)
    (h : get_latest_version versions = some m) :
    (m ∈ versions ∧ ∀ v ∈ versions, tupleLt (version_key m) (version_key v) = false) ∧
    (∀ s : String, (splitDots s).mapM pyInt = none → version_key (.str s) = [0, 0, 0]) ∧
    version_key (.str "0.0.0") = [0, 0, 0] := by
  refine ⟨get_latest_max versions m h, ?_, rfl⟩
  intro s hs
  show (match List.mapM pyInt (splitDots s) with
    | some ks => ks
    | none => [0, 0, 0]) = [0, 0, 0]
  rw [hs]

theorem c1_witness :
    ((Json.str "1.0.0") ∈ [Json.str "1.0.0"] ∧
      ∀ v ∈ [Json.str "1.0.0"],
        tupleLt (version_key (.str "1.0.0")) (version_key v) = false) ∧
    (∀ s : String, (splitDots s).mapM pyInt = none → version_key (.str s) = [0, 0, 0]) ∧
    version_key (.str "0.0.0") = [0, 0, 0] :=
  c1_malformed_version_ordering [Json.str "1.0.0"] (Json.str "1.0.0") rfl


theorem pyInt_digits (l : List Char) (h : allDigits l = true) :
    pyInt l = some ((decimalVal l : Int)) := by
  cases l with
  | nil => simp [allDigits] at h
  | cons c rest =>
    have hc : c.isDigit = true := by
      have h' := h
      simp [allDigits, List.all_cons] at h'
      exact h'.1
    have h1 : ¬ c = '-' := fun e => by
      rw [e] at hc
      exact absurd hc (by decide)
    have h2 : ¬ c = '+' := fun e => by
      rw [e] at hc
      exact absurd hc (by decide)
    simp [pyInt, h1, h2, h]

theorem mapM_pyInt_digits (parts : List (List Char))
    (h : ∀ p ∈ parts, allDigits p = true) :
    parts.mapM pyInt = some (parts.map (fun p => (decimalVal p : Int))) := by
  induction parts with
  | nil => rfl
  | cons p rest ih =>
    rw [List.mapM_cons, pyInt_digits p (h p (List.mem_cons_self _ _)),
      ih (fun q hq => h q (List.mem_cons_of_mem _ hq))]
    rfl

theorem version_key_numeric (s : String) (h : numericTriplet s = true) :
    version_key (.str s) = numKey s := by
  have hall : ∀ p ∈ splitDots s, allDigits p = true := by
    simp [numericTriplet, List.all_eq_true] at h
    exact h.2
  show (match List.mapM pyInt (splitDots s) with
    | some ks => ks
    | none => [0, 0, 0]) = numKey s
  rw [mapM_pyInt_digits _ hall]
  rfl

theorem splitOnChar_ne_nil (c : Char) (l : List Char) : splitOnChar c l ≠ [] := by
  cases l with
  | nil => simp [splitOnChar]
  | cons x xs =>
    simp only [splitOnChar]
    cases h : splitOnChar c xs with
    | nil => simp
    | cons hd tl => by_cases hx : x = c <;> simp [hx]

theorem flatten_splitOnChar (c : Char) (l : List Char) :
    (splitOnChar c l).flatten = l.filter (fun x => x != c) := by
  induction l with
  | nil => rfl
  | cons x xs ih =>
    simp only [splitOnChar]
    cases h : splitOnChar c xs with
    | nil => exact absurd h (splitOnChar_ne_nil c xs)
    | cons hd tl =>
      rw [h] at ih
      by_cases hx : x = c
      · subst hx
        simp only [if_pos rfl, List.flatten_cons, List.nil_append, List.filter_cons]
        simp only [bne_self_eq_false, ite_false, if_false]
        simpa using ih
      · simp only [if_neg hx, List.flatten_cons, List.cons_append, List.filter_cons]
        have hbx : (x != c) = true := by simp [hx]
        rw [hbx]
        simp only [if_true]
        rw [← List.flatten_cons]
        rw [ih]

theorem mapM_decimal (parts : List (List Char))
    (h : ∀ p ∈ parts, allDigits p = true) :
    parts.mapM (fun p => if p.isEmpty then (Except.error PyExc.valueError)
        else Except.ok ((decimalVal p : Int))) =
      Except.ok (parts.map (fun p => (decimalVal p : Int))) := by
  induction parts with
  | nil => rfl
  | cons p ps ih =>
    have hp := h p (List.mem_cons_self _ _)
    have hpe : p.isEmpty = false := by
      cases p
      · simp [allDigits] at hp
      · simp
    rw [List.mapM_cons, ih (fun q hq => h q (List.mem_cons_of_mem _ hq))]
    simp only [hpe, if_false, Bool.false_eq_true]
    rfl

theorem sortKey126_numeric (s : String) (h : numericTriplet s = true) :
    sortKey126 (.str s) = .ok (numKey s) := by
  have hlen : (splitDots s).length = 3 := by
    simp [numericTriplet] at h
    exact h.1
  have hall : ∀ p ∈ splitDots s, allDigits p = true := by
    simp [numericTriplet, List.all_eq_true] at h
    exact h.2
  obtain ⟨p0, rest, hps⟩ : ∃ p0 rest, splitDots s = p0 :: rest := by
    cases hx : splitDots s with
    | nil => rw [hx] at hlen; simp at hlen
    | cons a b => exact ⟨a, b, rfl⟩
  have hp0 : allDigits p0 = true := hall p0 (by rw [hps]; exact List.mem_cons_self _ _)
  have hfilter : allDigits (s.data.filter (fun c => c != '.')) = true := by
    have hj : (splitDots s).flatten = s.data.filter (fun c => c != '.') :=
      flatten_splitOnChar '.' s.data
    rw [← hj]
    have hne : ((splitDots s).flatten).isEmpty = false := by
      rw [hps]
      cases p0 with
      | nil => simp [allDigits] at hp0
      | cons c0 cs0 => simp
    have hdig : ((splitDots s).flatten).all Char.isDigit = true := by
      rw [List.all_eq_true]
      intro x hx
      rcases List.mem_flatten.1 hx with ⟨p, hp, hxp⟩
      have hd := hall p hp
      simp [allDigits, List.all_eq_true] at hd
      exact hd.2 x hxp
    simp [allDigits, hne, hdig]
  simp only [sortKey126]
  rw [if_pos hfilter]
  exact mapM_decimal (splitDots s) hall

theorem mapM_sortKey (ss : List String) (h : ∀ s ∈ ss, numericTriplet s = true) :
    (ss.map Json.str).mapM (fun v => (sortKey126 v).map (fun k => (v, k))) =
      .ok (ss.map (fun s => (Json.str s, numKey s))) := by
  induction ss with
  | nil => rfl
  | cons s rest ih =>
    simp only [List.map_cons, List.mapM_cons]
    rw [sortKey126_numeric s (h s (List.mem_cons_self _ _)),
      ih (fun q hq => h q (List.mem_cons_of_mem _ hq))]
    rfl

theorem sortVersions_numeric (ss : List String) (h : ∀ s ∈ ss, numericTriplet s = true) :
    sortVersions (ss.map Json.str) =
      .ok ((List.insertionSort (keyGe (fun p : Json × List Int => p.2))
        (ss.map (fun s => (Json.str s, numKey s)))).map (fun p => p.1)) := by
  show (match (ss.map Json.str).mapM (fun v => (sortKey126 v).map (fun k => (v, k))) with
    | .error e => (.error e : Except PyExc (List Json))
    | .ok keyed => .ok ((List.insertionSort (keyGe (fun p : Json × List Int => p.2)) keyed).map
        (fun p : Json × List Int => p.1))) = _
  rw [mapM_sortKey ss h]

/-- C8: over well-formed numeric triplets, `latest` is a member whose
numeric key no other entry exceeds, the package `versions` list is sorted
descending by the component-wise numeric key, and on the concrete list
`["1.2.0", "1.10.0", "1.9.9"]` the computed latest is `"1.10.0"` with
sorted list `["1.10.0", "1.9.9", "1.2.0"]` — numeric, not lexicographic,
comparison. -/
theorem c8_numeric_semver_ordering (ss : List String)
    (h : ∀ s ∈ ss, numericTriplet s = true) :
    (∀ m, get_latest_version (ss.map Json.str) = some m →
      m ∈ ss.map Json.str ∧
        ∀ v ∈ ss.map Json.str, tupleLt (version_key m) (version_key v) = false) ∧
    (∃ sorted, sortVersions (ss.map Json.str) = .ok sorted ∧
      sorted.Pairwise (fun a b => tupleLt (version_key a) (version_key b) = false)) ∧
    get_latest_version [.str "1.2.0", .str "1.10.0", .str "1.9.9"] = some (.str "1.10.0") ∧
    sortVersions [.str "1.2.0", .str "1.10.0", .str "1.9.9"] =
      .ok [.str "1.10.0", .str "1.9.9", .str "1.2.0"] := by
  refine ⟨fun m hm => get_latest_max _ m hm, ?_, rfl, rfl⟩
  refine ⟨_, sortVersions_numeric ss h, ?_⟩
  rw [List.pairwise_map]
  have hsorted : List.Pairwise (keyGe (fun p : Json × List Int => p.2))
      (List.insertionSort (keyGe (fun p : Json × List Int => p.2))
        (ss.map (fun s => (Json.str s, numKey s)))) :=
    List.sorted_insertionSort (keyGe (fun p : Json × List Int => p.2))
      (ss.map (fun s => (Json.str s, numKey s)))
  have hmem : ∀ p ∈ List.insertionSort (keyGe (fun p : Json × List Int => p.2))
      (ss.map (fun s => (Json.str s, numKey s))), p.2 = version_key p.1 := by
    intro p hp
    have hp' : p ∈ ss.map (fun s => (Json.str s, numKey s)) := (List.mem_insertionSort _).1 hp
    rcases List.mem_map.1 hp' with ⟨s, hs, rfl⟩
    exact (version_key_numeric s (h s hs)).symm
  refine List.Pairwise.imp_of_mem ?_ hsorted
  intro a b ha hb hr
  have h1 := hmem a ha
  have h2 := hmem b hb
  rw [← h1, ← h2]
  exact hr

theorem c8_witness :
    (∀ m, get_latest_version (["1.2.0", "1.10.0", "1.9.9"].map Json.str) = some m →
      m ∈ ["1.2.0", "1.10.0", "1.9.9"].map Json.str ∧
        ∀ v ∈ ["1.2.0", "1.10.0", "1.9.9"].map Json.str,
          tupleLt (version_key m) (version_key v) = false) ∧
    (∃ sorted, sortVersions (["1.2.0", "1.10.0", "1.9.9"].map Json.str) = .ok sorted ∧
      sorted.Pairwise (fun a b => tupleLt (version_key a) (version_key b) = false)) ∧
    get_latest_version [.str "1.2.0", .str "1.10.0", .str "1.9.9"] = some (.str "1.10.0") ∧
    sortVersions [.str "1.2.0", .str "1.10.0", .str "1.9.9"] =
      .ok [.str "1.10.0", .str "1.9.9", .str "1.2.0"] :=
  c8_numeric_semver_ordering ["1.2.0", "1.10.0", "1.9.9"] (by decide)

theorem isNull_true (c : Json) (h : isNull c = true) : c = .null := by
  cases c <;> simp [isNull] at h ⊢

theorem foldl_extractStep_snd_stable (entries : List Json) (vs : List Json) (c : Json)
    (hc : isNull c = false) :
    (List.foldl extractStep (vs, c) entries).2 = c := by
  induction entries generalizing vs with
  | nil => rfl
  | cons e rest ih =>
    cases e with
    | obj ef =>
      simp only [List.foldl_cons, extractStep]
      by_cases hv : hasKey ef "version"
      · simp only [hv, if_true, hc, Bool.and_false, if_false]
        exact ih _
      · simp only [hv, Bool.false_eq_true, if_false]
        exact ih _
    | str s => exact ih _
    | null => exact ih _
    | bool b => exact ih _
    | num n => exact ih _
    | arr l => exact ih _

theorem foldl_extractStep_snd_null (entries : List Json) (vs : List Json) :
    (List.foldl extractStep (vs, Json.null) entries).2 =
      (amendedFirstCategory entries).getD .null := by
  induction entries generalizing vs with
  | nil => rfl
  | cons e rest ih =>
    cases e with
    | obj ef =>
      simp only [List.foldl_cons, extractStep, amendedFirstCategory, List.findSome?_cons]
      by_cases hv : hasKey ef "version"
      · cases hcat : getKey? ef "category" with
        | none =>
          have hnc : hasKey ef "category" = false := by simp [hasKey, hcat]
          simp only [hv, if_true, hnc, Bool.false_and, if_false]
          exact ih _
        | some c =>
          have hyc : hasKey ef "category" = true := by simp [hasKey, hcat]
          have hnl : isNull Json.null = true := rfl
          by_cases hn : isNull c
          · have hcn : c = .null := isNull_true c hn
            subst hcn
            simp only [hv, if_true, hyc, hnl, Bool.and_true, hcat, Option.getD_some, if_true]
            exact ih _
          · have hn' : isNull c = false := by
              cases hb : isNull c
              · rfl
              · exact absurd hb hn
            simp only [hv, if_true, hyc, hnl, Bool.and_true, hcat, Option.getD_some, hn',
              Bool.false_eq_true, if_false]
            exact foldl_extractStep_snd_stable rest _ c hn'
      · simp only [hv, Bool.false_eq_true, if_false]
        exact ih _
    | str s =>
      simp only [List.foldl_cons, extractStep, amendedFirstCategory, List.findSome?_cons]
      exact ih _
    | null =>
      simp only [List.foldl_cons, extractStep, amendedFirstCategory, List.findSome?_cons]
      exact ih _
    | bool b =>
      simp only [List.foldl_cons, extractStep, amendedFirstCategory, List.findSome?_cons]
      exact ih _
    | num n =>
      simp only [List.foldl_cons, extractStep, amendedFirstCategory, List.findSome?_cons]
      exact ih _
    | arr l =>
      simp only [List.foldl_cons, extractStep, amendedFirstCategory, List.findSome?_cons]
      exact ih _

theorem extractVersions_snd (entries : List Json) :
    (extractVersions entries).2 = (amendedFirstCategory entries).getD .null :=
  foldl_extractStep_snd_null entries []

theorem amendedFirstCategory_not_null (entries : List Json) (c : Json)
    (h : amendedFirstCategory entries = some c) : isNull c = false := by
  induction entries with
  | nil => simp [amendedFirstCategory] at h
  | cons e rest ih =>
    simp only [amendedFirstCategory, List.findSome?_cons] at h
    cases e with
    | obj ef =>
      by_cases hv : hasKey ef "version"
      · cases hcat : getKey? ef "category" with
        | none =>
          simp only [hv, if_true, hcat] at h
          exact ih h
        | some d =>
          by_cases hn : isNull d
          · simp only [hv, if_true, hcat, hn, if_true] at h
            exact ih h
          · simp only [hv, if_true, hcat, hn, if_false] at h
            injection h with h
            subst h
            cases hb : isNull d
            · rfl
            · exact absurd hb hn
      · simp only [hv, Bool.false_eq_true, if_false] at h
        exact ih h
    | str s => exact ih h
    | null => exact ih h
    | bool b => exact ih h
    | num n => exact ih h
    | arr l => exact ih h

theorem isNull_remapCategory (c : Json) (h : isNull c = false) :
    isNull (remapCategory c) = false := by
  unfold remapCategory
  split
  · rfl
  · split
    · rfl
    · exact h

/-- C5 counterexample: a first version entry carrying `category: "core"`
but no `version` field is ignored by the code's scan, so the package named
`"foo"` lands in the assets-store bucket, while the claim's reading — the
first explicit category found wins, remapped from `"core"` to
`"registry"` — places it in the registry bucket. -/
theorem c5_counterexample :
    bucketOf (.str "foo")
      [.obj [("category", .str "core")], .obj [("version", .str "1.0.0")]] = .ok false ∧
    claimBucketIsRegistry "foo"
      [.obj [("category", .str "core")], .obj [("version", .str "1.0.0")]] = true :=
  ⟨rfl, rfl⟩

/-- C5 (amended): for a string package name, the rebuild's bucket is
computed from the first non-null `category` value among version entries
that are objects containing a `version` field; that value is remapped
(`core` to `registry`, `third-party` to `assets-store`) and the package
lands in the registry bucket exactly when the result equals `"registry"`;
when no such category exists the bucket is inferred from the
`com.nexel.` name prefix.  This is a pure function of the manifest, hence
deterministic across repeated rebuilds. -/
theorem c5_bucket_resolution (name : String) (entries : List Json) :
    bucketOf (.str name) entries =
      .ok (match amendedFirstCategory entries with
        | some c => isStrEq "registry" (remapCategory c)
        | none => "com.nexel.".data.isPrefixOf name.data) := by
  unfold bucketOf resolveBucket
  rw [extractVersions_snd]
  cases hc : amendedFirstCategory entries with
  | none =>
    simp only [Option.getD_none]
    have h0 : remapCategory Json.null = Json.null := rfl
    rw [h0]
    have h1 : isNull Json.null = true := rfl
    rw [if_pos h1]
    by_cases hp : "com.nexel.".data.isPrefixOf name.data
    · simp [hp, isStrEq]
    · simp [hp, isStrEq]
  | some c =>
    have hnn := amendedFirstCategory_not_null entries c hc
    have hr := isNull_remapCategory c hnn
    simp only [Option.getD_some]
    rw [if_neg (by rw [hr]; exact Bool.false_ne_true)]

/-- C4: the validator, given syntactically valid (parseable) documents,
can raise instead of returning a defect list: a non-string `version`
raises `AttributeError` at `version_str.split`, a truthy non-sized
`shasum` raises `TypeError` at `len`, a non-string `url` raises
`AttributeError` at `startswith`, and a non-container top-level document
raises `TypeError` at the `in` membership test.  This contradicts the
documented never-raises contract, which the surrounding error-collecting
code (the explicit per-field type errors) shows to be the intent. -/
theorem c4_validator_raises :
    validate_manifest (.obj [("name", .str "p"),
      ("versions", .arr [.obj [("version", .num 5),
        ("shasum", .str "abcdefabcdefabcdefabcdefabcdefabcdefabcdefabcdefabcdefabcdefabcd"),
        ("url", .str "https://e.com/a.zip"), ("published", .str "t")]])]) =
      .error .attributeError ∧
    validate_manifest (.num 5) = .error .typeError ∧
    validate_manifest (.obj [("name", .str "p"),
      ("versions", .arr [.obj [("version", .str "1.0.0"),
        ("shasum", .num 7),
        ("url", .str "https://e.com/a.zip"), ("published", .str "t")]])]) =
      .error .typeError ∧
    validate_manifest (.obj [("name", .str "p"),
      ("versions", .arr [.obj [("version", .str "1.0.0"),
        ("shasum", .str "abcdefabcdefabcdefabcdefabcdefabcdefabcdefabcdefabcdefabcdefabcd"),
        ("url", .num 7), ("published", .str "t")]])]) =
      .error .attributeError :=
  ⟨rfl, rfl, rfl, rfl⟩

/-- C6 counterexample: an `engineVersion` that is a number or a list — a
shape the claim says must be reported as an error — is silently accepted
with an empty error list, because the source has no `else` branch. -/
theorem c6_counterexample :
    validate_version (engineProbeEntry (.num 5)) (.str "p") = .ok [] ∧
    validate_version (engineProbeEntry (.arr [.str "1.0.0"])) (.str "p") = .ok [] :=
  ⟨rfl, rfl⟩

/-- C6 (amended): with the other fields well-formed, the `engineVersion`
check reports an error exactly when the value is a nonempty object
containing neither `min` nor `max`: a bare string passes with no further
checks, an empty object is falsy and skipped entirely, and every other
shape (number, list, boolean, null) is silently accepted. -/
theorem c6_engine_version_check (ev : Json) :
    validate_version (engineProbeEntry ev) (.str "p") =
      .ok (if engineShapeError ev then
        ["engineVersion object must contain \x27min\x27 or \x27max\x27 field"]
      else []) := by
  show Except.ok (engineErrors (engineProbeEntry ev)) = _
  have hev : (getKey? (engineProbeEntry ev) "engineVersion").getD .null = ev := rfl
  cases ev with
  | null => rfl
  | bool b => cases b <;> rfl
  | num n =>
    show Except.ok (if truthy (.num n) then [] else []) = .ok (if false then _ else [])
    simp
  | str s =>
    show Except.ok (if truthy (.str s) then [] else []) = .ok (if false then _ else [])
    simp
  | arr l =>
    show Except.ok (if truthy (.arr l) then [] else []) = .ok (if false then _ else [])
    simp
  | obj mf =>
    show Except.ok (if truthy (.obj mf) then
        (if hasKey mf "min" || hasKey mf "max" then []
         else ["engineVersion object must contain \x27min\x27 or \x27max\x27 field"])
      else []) = _
    by_cases hemp : mf.isEmpty
    · simp [truthy, engineShapeError, hemp]
    · have htr : truthy (.obj mf) = true := by simp [truthy, hemp]
      by_cases hk : (hasKey mf "min" || hasKey mf "max") = true
      · simp [htr, hk, engineShapeError, hemp]
      · simp [htr, hk, engineShapeError, hemp]

theorem validate_version_ok (ef : List (String × Json)) (pkg : Json)
    (h : WellFormedEntry ef) : validate_version ef pkg = .ok [] := by
  obtain ⟨⟨v, hv, hvt⟩, ⟨sh, hsh, hshl⟩, ⟨u, hu, hup⟩, ⟨pb, hpb⟩, heng⟩ := h
  have h1 : requiredVersionErrors ef = [] := by
    unfold requiredVersionErrors REQUIRED_VERSION_FIELDS
    simp [List.foldl_cons, List.foldl_nil, hv, hsh, hu, hpb, jIsinstance]
  have h2 : versionFormatErrors ef = .ok [] := by
    unfold versionFormatErrors
    rw [hv]
    simp only [Option.getD_some]
    have hvne : v ≠ "" := fun e => by
      rw [e] at hvt
      exact absurd hvt (by decide)
    have htr : truthy (.str v) = true := by simp [truthy, hvne]
    rw [if_pos htr]
    have hlen : (splitDots v).length = 3 := by
      simp [numericTriplet] at hvt
      exact hvt.1
    have hall : ∀ p ∈ splitDots v, allDigits p = true := by
      simp [numericTriplet, List.all_eq_true] at hvt
      exact hvt.2
    have hne3 : ¬ ((splitDots v).length ≠ 3) := by rw [hlen]; simp
    rw [mapM_pyInt_digits _ hall]
    simp [hne3]
  have h3 : shasumErrors ef = .ok [] := by
    unfold shasumErrors
    rw [hsh]
    simp only [Option.getD_some]
    have hshne : sh ≠ "" := fun e => by
      rw [e] at hshl
      simp at hshl
    have htr : truthy (.str sh) = true := by simp [truthy, hshne]
    rw [if_pos htr]
    simp [pyLen, hshl]
  have h4 : urlErrors ef = .ok [] := by
    unfold urlErrors
    rw [hu]
    simp only [Option.getD_some]
    have hune : u ≠ "" := fun e => by
      rw [e] at hup
      exact absurd hup (by decide)
    have htr : truthy (.str u) = true := by simp [truthy, hune]
    rw [if_pos htr]
    simp [hup]
  have h5 : engineErrors ef = [] := by
    unfold engineErrors
    cases hev : getKey? ef "engineVersion" with
    | none => simp [Option.getD_none, truthy]
    | some ev =>
      have hshape := heng ev hev
      simp only [Option.getD_some]
      cases ev with
      | null => simp [truthy]
      | bool b => cases b <;> simp [truthy]
      | num n => simp [truthy]
      | str s => simp [truthy]
      | arr l => simp [truthy]
      | obj mfe =>
        simp only [engineShapeError] at hshape
        by_cases hemp : mfe.isEmpty
        · simp [truthy, hemp]
        · have hk : (hasKey mfe "min" || hasKey mfe "max") = true := by
            cases hor : (hasKey mfe "min" || hasKey mfe "max")
            · rw [hor] at hshape
              simp [hemp] at hshape
            · rfl
          simp [truthy, hemp, hk]
  unfold validate_version
  rw [h1, h2, h3, h4, h5]
  rfl

theorem checkEntries_ok (pkg : Json) : ∀ (entries : List Json) (i : Nat),
    (∀ e ∈ entries, ∃ ef, e = .obj ef ∧ WellFormedEntry ef) →
    checkEntries pkg i entries = .ok []
  | [], _, _ => rfl
  | e :: rest, i, h => by
    obtain ⟨ef, he, hwf⟩ := h e (List.mem_cons_self _ _)
    subst he
    simp only [checkEntries]
    rw [validate_version_ok ef pkg hwf,
      checkEntries_ok pkg rest (i + 1) (fun q hq => h q (List.mem_cons_of_mem _ hq))]
    rfl

theorem ok_pair_iff (l : List String) (b : Bool) (errs : List String)
    (h : (Except.ok (l.isEmpty, l) : Except PyExc (Bool × List String)) = .ok (b, errs)) :
    b = true ↔ errs = [] := by
  injection h with h
  rw [Prod.mk.injEq] at h
  obtain ⟨hb, he⟩ := h
  subst hb
  subst he
  cases l <;> simp

theorem validate_manifest_iff (m : Json) (b : Bool) (errs : List String)
    (h : validate_manifest m = .ok (b, errs)) : b = true ↔ errs = [] := by
  unfold validate_manifest at h
  cases h1 : checkRequiredFields m REQUIRED_MANIFEST_FIELDS with
  | error e => rw [h1] at h; simp at h
  | ok errs1 =>
    rw [h1] at h
    cases h2 : pyIn "versions" m with
    | error e => rw [h2] at h; simp at h
    | ok hv =>
      rw [h2] at h
      cases hv with
      | false => exact ok_pair_iff errs1 b errs h
      | true =>
        cases h3 : pySubscriptStr "versions" m with
        | error e => rw [h3] at h; simp at h
        | ok vs =>
          rw [h3] at h
          cases vs with
          | arr entries =>
            simp only [] at h
            cases h4 : checkEntries (manifestPkgName m) 0 entries with
            | error e => rw [h4] at h; simp at h
            | ok errs2 =>
              rw [h4] at h
              exact ok_pair_iff (errs1 ++ errs2) b errs h
          | null => exact ok_pair_iff (errs1 ++ ["\x27versions\x27 must be an array"]) b errs h
          | bool b2 => exact ok_pair_iff (errs1 ++ ["\x27versions\x27 must be an array"]) b errs h
          | num n2 => exact ok_pair_iff (errs1 ++ ["\x27versions\x27 must be an array"]) b errs h
          | str s2 => exact ok_pair_iff (errs1 ++ ["\x27versions\x27 must be an array"]) b errs h
          | obj o2 => exact ok_pair_iff (errs1 ++ ["\x27versions\x27 must be an array"]) b errs h

/-- C7 counterexample: a manifest satisfying every hypothesis of the claim
— all required fields present with correct types, a numeric triplet
version, a 64-character shasum, an http url — is nevertheless rejected,
because its (optional) `engineVersion` is an object without `min`/`max`. -/
theorem c7_counterexample :
    validate_manifest (.obj [("name", .str "com.x.pkg"),
      ("versions", .arr [.obj [("version", .str "1.0.0"),
        ("shasum", .str "abcdefabcdefabcdefabcdefabcdefabcdefabcdefabcdefabcdefabcdefabcd"),
        ("url", .str "https://e.com/a.zip"), ("published", .str "t"),
        ("engineVersion", .obj [("foo", .num 1)])]])]) =
      .ok (false,
        ["Version 0 (1.0.0): engineVersion object must contain \x27min\x27 or \x27max\x27 field"]) :=
  rfl

/-- C7 (amended): a manifest whose `name` is a string, whose `versions`
is an array of objects each carrying a numeric-triplet `version`, a
64-character `shasum`, an http(s) `url` and a string `published`, and
whose optional `engineVersion` values are not nonempty min/max-less
objects, validates as `(true, [])`; and in general a returned result is
valid exactly when its accumulated error list is empty. -/
theorem c7_valid_manifest_accepts (mf : List (String × Json)) (name : String)
    (entries : List Json)
    (hname : getKey? mf "name" = some (.str name))
    (hvers : getKey? mf "versions" = some (.arr entries))
    (hwf : ∀ e ∈ entries, ∃ ef, e = .obj ef ∧ WellFormedEntry ef) :
    validate_manifest (.obj mf) = .ok (true, []) ∧
    (∀ m b errs, validate_manifest m = .ok (b, errs) → (b = true ↔ errs = [])) := by
  constructor
  · have hk1 : hasKey mf "name" = true := by simp [hasKey, hname]
    have hk2 : hasKey mf "versions" = true := by simp [hasKey, hvers]
    unfold validate_manifest
    have hreq : checkRequiredFields (.obj mf) REQUIRED_MANIFEST_FIELDS = .ok [] := by
      unfold REQUIRED_MANIFEST_FIELDS
      simp only [checkRequiredFields, pyIn, pySubscriptStr, hk1, hk2, hname, hvers]
      simp [jIsinstance]
    rw [hreq]
    have hin : pyIn "versions" (.obj mf) = .ok true := by simp [pyIn, hk2]
    rw [hin]
    have hsub : pySubscriptStr "versions" (.obj mf) = .ok (.arr entries) := by
      simp [pySubscriptStr, hvers]
    rw [hsub]
    simp only []
    rw [checkEntries_ok (manifestPkgName (.obj mf)) entries 0 hwf]
    rfl
  · exact fun m b errs h => validate_manifest_iff m b errs h

theorem c7_witness :
    validate_manifest (.obj [("name", .str "com.nexel.core"),
      ("versions", .arr [.obj [("version", .str "1.0.0"),
        ("shasum", .str "aaaaaaaaaaaaaaaaaaaaaaaaaaaaaaaaaaaaaaaaaaaaaaaaaaaaaaaaaaaaaaaa"),
        ("url", .str "https://example.com/p.zip"),
        ("published", .str "2024-01-01")]])]) = .ok (true, []) ∧
    (∀ m b errs, validate_manifest m = .ok (b, errs) → (b = true ↔ errs = [])) :=
  c7_valid_manifest_accepts
    [("name", .str "com.nexel.core"),
     ("versions", .arr [.obj [("version", .str "1.0.0"),
       ("shasum", .str "aaaaaaaaaaaaaaaaaaaaaaaaaaaaaaaaaaaaaaaaaaaaaaaaaaaaaaaaaaaaaaaa"),
       ("url", .str "https://example.com/p.zip"),
       ("published", .str "2024-01-01")]])]
    "com.nexel.core"
    [.obj [("version", .str "1.0.0"),
      ("shasum", .str "aaaaaaaaaaaaaaaaaaaaaaaaaaaaaaaaaaaaaaaaaaaaaaaaaaaaaaaaaaaaaaaa"),
      ("url", .str "https://example.com/p.zip"),
      ("published", .str "2024-01-01")]]
    rfl rfl
    (by
      intro e he
      simp only [List.mem_singleton] at he
      subst he
      refine ⟨_, rfl, ⟨"1.0.0", rfl, by decide⟩, ⟨_, rfl, by decide⟩, ⟨_, rfl, by decide⟩,
        ⟨_, rfl⟩, ?_⟩
      intro ev hev
      exact Option.noConfusion hev)

theorem c3_witness :
    ∃ idx2, update_index ⟨some [], .parsed (.obj freshIndexFields)⟩ "b" =
        .ok (.success idx2 []) ∧
      packagesOf idx2 = packagesOf (.obj freshIndexFields) ∧
      revisionOf idx2 = some (.num 2) :=
  c3_rebuild_roundtrip "a" "b" [] .absent (.obj freshIndexFields) [] 1 rfl rfl
